import Mathlib

/-!
Verification of the tic-tac-toe game controller.

The definitions below are a shallow embedding of the generalized N by N
variant of the game (class Game in src/index.tsx): the board is a flat
list of marks, the controller state carries the move history, the cursor
(stepNumber) and the turn flag (xIsNext), and the operations mirror
handleClick, jumpToStateInMoveHistory, reportGameStatus and the helpers
they call.  JavaScript array reads out of range yield undefined (falsy),
and writes past the end extend the array with holes; getCell and setCell
model both behaviours explicitly.
-/

set_option maxRecDepth 100000

namespace TicTacToe

/-- The content of one square: X, O, or empty (null in the source). -/
inductive Mark where
  | X : Mark
  | O : Mark
  | Empty : Mark
deriving DecidableEq

/-- The (row, column) pair attached to a history entry; both fields are
null (none) for the initial board that no move produced. -/
structure Coordinates where
  row : Option Nat
  column : Option Nat
deriving DecidableEq

/-- One entry of the game history: a board snapshot plus the coordinates
of the move that produced it (field movePosition in the source). -/
structure MoveHistory where
  squares : List Mark
  movePosition : Coordinates
deriving DecidableEq

/-- The state carried by the Game component: the history of board
snapshots, the cursor into it, and the turn flag. -/
structure GameState where
  history : List MoveHistory
  stepNumber : Nat
  xIsNext : Bool
deriving DecidableEq

/-- Reading squares[i]: out-of-range reads give undefined, which the
source treats as an empty square. -/
def getCell (squares : List Mark) (i : Nat) : Mark :=
  squares.getD i Mark.Empty

/-- Writing squares[i] = m with JavaScript semantics: in range it
overwrites, past the end it extends the array with holes (empty cells)
up to position i and puts m there. -/
def setCell (squares : List Mark) (i : Nat) (m : Mark) : List Mark :=
  if i < squares.length then squares.set i m
  else squares ++ List.replicate (i - squares.length) Mark.Empty ++ [m]

/-- Method calculateBoardArea: the number of squares on the board. -/
def calculateBoardArea (boardSize : Nat) : Nat :=
  boardSize ^ 2

/-- The state built by the Game constructor: a single all-empty board,
cursor 0, X to move. -/
def initialState (boardSize : Nat) : GameState :=
  { history := [{ squares := List.replicate (calculateBoardArea boardSize) Mark.Empty,
                  movePosition := { row := none, column := none } }],
    stepNumber := 0,
    xIsNext := true }

/-- Method getHistoryCopy: history.slice(0, stepNumber + 1). -/
def getHistoryCopy (g : GameState) : List MoveHistory :=
  g.history.take (g.stepNumber + 1)

/-- Default used to model reading history[history.length - 1] from an
empty array; never hit on states the constructor can produce. -/
def emptyEntry : MoveHistory :=
  { squares := [], movePosition := { row := none, column := none } }

/-- Method getCurrentState: the last entry of the truncated history. -/
def getCurrentState (g : GameState) : MoveHistory :=
  (getHistoryCopy g).getD ((getHistoryCopy g).length - 1) emptyEntry

/-- Method getCurrentBoardLayoutCopy: a copy of the current squares. -/
def getCurrentBoardLayoutCopy (g : GameState) : List Mark :=
  (getCurrentState g).squares

/-- The hard-coded table of 8 winning lines of the 3 by 3 board: 3 rows,
3 columns, 2 diagonals, in the order the source lists them. -/
def winLines : List (Nat × Nat × Nat) :=
  [(0, 1, 2), (3, 4, 5), (6, 7, 8), (0, 3, 6), (1, 4, 7), (2, 5, 8), (0, 4, 8), (2, 4, 6)]

/-- The condition tested for one line: squares[a] is truthy (non-empty)
and equals squares[b] and squares[c]. -/
abbrev LineMatches (squares : List Mark) (l : Nat × Nat × Nat) : Prop :=
  getCell squares l.1 ≠ Mark.Empty ∧
    getCell squares l.1 = getCell squares l.2.1 ∧
    getCell squares l.1 = getCell squares l.2.2

/-- The loop body of calculateWinner over a list of lines: return the
mark of the first matching line, null (empty) if none matches. -/
def winnerForLines : List (Nat × Nat × Nat) → List Mark → Mark
  | [], _ => Mark.Empty
  | l :: rest, squares =>
      if LineMatches squares l then getCell squares l.1
      else winnerForLines rest squares

/-- Method calculateWinner: runs the line scan on the current board. -/
def calculateWinner (g : GameState) : Mark :=
  winnerForLines winLines (getCurrentState g).squares

/-- Method computeCoordinates: row is floor(i / boardSize), column is
i mod boardSize. -/
def computeCoordinates (boardSize : Nat) (squareIndex : Nat) : Coordinates :=
  { row := some (squareIndex / boardSize), column := some (squareIndex % boardSize) }

/-- Method updateState: append the new snapshot to the (already
truncated) history, move the cursor to the appended entry, flip the
turn flag. -/
def updateState (boardSize : Nat) (g : GameState) (history : List MoveHistory)
    (squares : List Mark) (i : Nat) : GameState :=
  { history := history ++ [{ squares := squares, movePosition := computeCoordinates boardSize i }],
    stepNumber := history.length,
    xIsNext := !g.xIsNext }

/-- Method fillSquareAndUpdateHistory: write the mover's mark into a
copy of the current board and hand everything to updateState. -/
def fillSquareAndUpdateHistory (boardSize : Nat) (g : GameState) (i : Nat) : GameState :=
  updateState boardSize g (getHistoryCopy g)
    (setCell (getCurrentBoardLayoutCopy g) i (if g.xIsNext then Mark.X else Mark.O)) i

/-- Method handleClick: a click is ignored when the current board has a
winner or the clicked square is occupied; otherwise the move is made. -/
def handleClick (boardSize : Nat) (g : GameState) (i : Nat) : GameState :=
  if calculateWinner g ≠ Mark.Empty ∨ getCell (getCurrentState g).squares i ≠ Mark.Empty then g
  else fillSquareAndUpdateHistory boardSize g i

/-- Method jumpToStateInMoveHistory: move the cursor and recompute the
turn flag from its parity; the history is untouched. -/
def jumpToStateInMoveHistory (g : GameState) (step : Nat) : GameState :=
  { g with stepNumber := step, xIsNext := decide (step % 2 = 0) }

/-- The three shapes of the status line produced by reportGameStatus. -/
inductive GameStatus where
  | Winner (m : Mark)
  | Draw
  | InProgress (next : Mark)
deriving DecidableEq

/-- Method reportGameStatus: winner first, then draw when the cursor
equals the board area, otherwise whose turn it is. -/
def reportGameStatus (boardSize : Nat) (g : GameState) : GameStatus :=
  if calculateWinner g ≠ Mark.Empty then GameStatus.Winner (calculateWinner g)
  else if g.stepNumber = calculateBoardArea boardSize then GameStatus.Draw
  else GameStatus.InProgress (if g.xIsNext then Mark.X else Mark.O)

/-- Folding a list of clicks through handleClick. -/
def playMoves (boardSize : Nat) (g : GameState) (moves : List Nat) : GameState :=
  moves.foldl (handleClick boardSize) g

/-- States reachable from the constructor's state by clicks and by
history jumps whose step satisfies the documented precondition
0 <= step < history.length (out-of-range jumps are undefined in the
source UI); clicks carry no precondition, the guard in handleClick is
the only filter, so arbitrary indices are allowed. -/
inductive Reachable (boardSize : Nat) : GameState → Prop where
  | init : Reachable boardSize (initialState boardSize)
  | place {g : GameState} (i : Nat) : Reachable boardSize g →
      Reachable boardSize (handleClick boardSize g i)
  | jump {g : GameState} (step : Nat) : Reachable boardSize g →
      step < g.history.length → Reachable boardSize (jumpToStateInMoveHistory g step)

/-- Number of occurrences of a mark on a board. -/
def countMark (m : Mark) : List Mark → Nat
  | [] => 0
  | x :: xs => (if x = m then 1 else 0) + countMark m xs

/-- Modelled from the spec words of section 4.2 (win detection), for
comparison with the implementation: find the first line whose three
cells are non-empty and equal and return its mark, otherwise empty. -/
def winnerSpec (squares : List Mark) : Mark :=
  match winLines.find? (fun l => decide (LineMatches squares l)) with
  | some l => getCell squares l.1
  | none => Mark.Empty

/-! Helper lemmas about counting marks and list access. -/

theorem countMark_append (m : Mark) (l1 l2 : List Mark) :
    countMark m (l1 ++ l2) = countMark m l1 + countMark m l2 := by
  induction l1 with
  | nil => simp [countMark]
  | cons x xs ih =>
      have hl : countMark m (x :: xs ++ l2) = (if x = m then 1 else 0) + countMark m (xs ++ l2) :=
        rfl
      have hr : countMark m (x :: xs) = (if x = m then 1 else 0) + countMark m xs := rfl
      rw [hl, hr, ih]
      omega

theorem countMark_replicate_empty (m : Mark) (h : m ≠ Mark.Empty) (n : Nat) :
    countMark m (List.replicate n Mark.Empty) = 0 := by
  induction n with
  | zero => rfl
  | succ k ih =>
      simp only [List.replicate, countMark, ih, if_neg (fun he : Mark.Empty = m => h he.symm)]

theorem countMark_set (m n : Mark) (hn : n ≠ Mark.Empty) (l : List Mark) :
    ∀ i : Nat, i < l.length → getCell l i = Mark.Empty →
      countMark n (l.set i m) = countMark n l + (if m = n then 1 else 0) := by
  induction l with
  | nil => intro i hi _; simp at hi
  | cons x xs ih =>
      intro i hi he
      cases i with
      | zero =>
          simp only [getCell, List.getD_cons_zero] at he
          subst he
          simp only [List.set, countMark, if_neg (fun h : Mark.Empty = n => hn h.symm)]
          omega
      | succ j =>
          simp only [List.set, countMark]
          rw [ih j (by simpa using hi) (by simpa [getCell] using he)]
          omega

theorem countMark_setCell (m n : Mark) (hn : n ≠ Mark.Empty) (l : List Mark) (i : Nat)
    (he : getCell l i = Mark.Empty) :
    countMark n (setCell l i m) = countMark n l + (if m = n then 1 else 0) := by
  unfold setCell
  split
  case isTrue h => exact countMark_set m n hn l i h he
  case isFalse h =>
      rw [countMark_append, countMark_append, countMark_replicate_empty n hn]
      simp only [countMark]
      omega

theorem getD_take_of_lt {α : Type} (l : List α) (n k : Nat) (d : α) (h : k < n) :
    (l.take n).getD k d = l.getD k d := by
  rcases Nat.lt_or_ge k l.length with hk | hk
  · have h1 : k < (l.take n).length := by
      rw [List.length_take]
      exact lt_min h hk
    rw [List.getD_eq_getElem _ _ h1, List.getD_eq_getElem _ _ hk, List.getElem_take]
  · have h1 : (l.take n).length ≤ k := by
      rw [List.length_take]
      exact le_trans (min_le_right _ _) hk
    rw [List.getD_eq_default _ _ h1, List.getD_eq_default _ _ hk]

theorem getD_append_self {α : Type} (l : List α) (e d : α) :
    (l ++ [e]).getD l.length d = e := by
  rw [List.getD_append_right _ _ _ _ (Nat.le_refl _), Nat.sub_self]
  rfl

/-- The inductive invariant of reachable controller states: the cursor
is in range, the turn flag is the parity of the cursor, and the board at
position k of the history holds exactly ceil(k / 2) X marks and
floor(k / 2) O marks. -/
def Inv (g : GameState) : Prop :=
  g.stepNumber < g.history.length ∧
  g.xIsNext = decide (g.stepNumber % 2 = 0) ∧
  ∀ k, k < g.history.length →
    countMark Mark.X (g.history.getD k emptyEntry).squares = (k + 1) / 2 ∧
    countMark Mark.O (g.history.getD k emptyEntry).squares = k / 2

theorem getHistoryCopy_length (g : GameState) (h : g.stepNumber < g.history.length) :
    (getHistoryCopy g).length = g.stepNumber + 1 := by
  rw [getHistoryCopy, List.length_take]
  exact min_eq_left h

theorem getCurrentState_eq (g : GameState) (h : g.stepNumber < g.history.length) :
    getCurrentState g = g.history.getD g.stepNumber emptyEntry := by
  rw [getCurrentState, getHistoryCopy_length g h, Nat.add_sub_cancel, getHistoryCopy]
  exact getD_take_of_lt g.history (g.stepNumber + 1) g.stepNumber emptyEntry (Nat.lt_succ_self _)

theorem handleClick_reject (boardSize : Nat) (g : GameState) (i : Nat)
    (h : calculateWinner g ≠ Mark.Empty ∨ getCell (getCurrentState g).squares i ≠ Mark.Empty) :
    handleClick boardSize g i = g :=
  if_pos h

theorem handleClick_accept (boardSize : Nat) (g : GameState) (i : Nat)
    (hw : calculateWinner g = Mark.Empty)
    (he : getCell (getCurrentState g).squares i = Mark.Empty) :
    handleClick boardSize g i = fillSquareAndUpdateHistory boardSize g i :=
  if_neg (fun hc => hc.elim (fun h1 => h1 hw) (fun h2 => h2 he))

theorem fillSquare_eq (boardSize : Nat) (g : GameState) (i : Nat) :
    fillSquareAndUpdateHistory boardSize g i =
      { history := getHistoryCopy g ++
          [{ squares := setCell (getCurrentState g).squares i
               (if g.xIsNext then Mark.X else Mark.O),
             movePosition := computeCoordinates boardSize i }],
        stepNumber := (getHistoryCopy g).length,
        xIsNext := !g.xIsNext } := rfl

theorem decide_succ_mod_two (s : Nat) :
    decide ((s + 1) % 2 = 0) = !decide (s % 2 = 0) := by
  rcases Nat.mod_two_eq_zero_or_one s with h | h <;> simp [Nat.add_mod, h]

theorem reachable_inv {boardSize : Nat} {g : GameState} (h : Reachable boardSize g) :
    Inv g := by
  induction h with
  | init =>
      refine ⟨by simp [initialState], by simp [initialState], ?_⟩
      intro k hk
      simp only [initialState, List.length_cons, List.length_nil] at hk
      have hk0 : k = 0 := by omega
      subst hk0
      simp only [initialState, List.getD_cons_zero]
      exact ⟨countMark_replicate_empty _ (by simp) _, countMark_replicate_empty _ (by simp) _⟩
  | place i hg ih =>
      obtain ⟨h1, h2, h3⟩ := ih
      rename_i g0
      by_cases hrej : calculateWinner g0 ≠ Mark.Empty ∨
          getCell (getCurrentState g0).squares i ≠ Mark.Empty
      · rw [handleClick_reject _ _ _ hrej]
        exact ⟨h1, h2, h3⟩
      · push_neg at hrej
        obtain ⟨hw, he⟩ := hrej
        rw [handleClick_accept _ _ _ hw he, fillSquare_eq]
        have hlen : (getHistoryCopy g0).length = g0.stepNumber + 1 := getHistoryCopy_length g0 h1
        have hcurs : getCurrentState g0 = g0.history.getD g0.stepNumber emptyEntry :=
          getCurrentState_eq g0 h1
        refine ⟨?_, ?_, ?_⟩
        · simp only [List.length_append, List.length_cons, List.length_nil]
          omega
        · simp only [hlen, h2, decide_succ_mod_two]
        · intro k hk
          simp only [List.length_append, List.length_cons, List.length_nil, hlen] at hk
          rcases Nat.lt_or_ge k (g0.stepNumber + 1) with hlt | hge
          · rw [List.getD_append _ _ _ k (hlen ▸ hlt), getHistoryCopy, getD_take_of_lt _ _ _ _ hlt]
            exact h3 k (lt_of_lt_of_le hlt h1)
          · have hkeq : k = g0.stepNumber + 1 := by omega
            subst hkeq
            have hself : ∀ e : MoveHistory,
                (getHistoryCopy g0 ++ [e]).getD (g0.stepNumber + 1) emptyEntry = e := by
              intro e
              rw [← hlen]
              exact getD_append_self _ e _
            rw [hself]
            have hcnt := h3 g0.stepNumber h1
            rw [← hcurs] at hcnt
            rcases Nat.mod_two_eq_zero_or_one g0.stepNumber with hp | hp
            · have hx : g0.xIsNext = true := by rw [h2, hp]; simp
              have hmark : (if g0.xIsNext then Mark.X else Mark.O) = Mark.X := by
                rw [hx]
                rfl
              rw [hmark]
              constructor
              · rw [countMark_setCell Mark.X Mark.X (by simp) _ _ he, hcnt.1]
                simp only [if_pos rfl]
                simp only [if_true]
                omega
              · rw [countMark_setCell Mark.X Mark.O (by simp) _ _ he, hcnt.2]
                simp only [if_neg (by simp : ¬ Mark.X = Mark.O)]
                omega
            · have hx : g0.xIsNext = false := by rw [h2, hp]; simp
              have hmark : (if g0.xIsNext then Mark.X else Mark.O) = Mark.O := by
                rw [hx]
                rfl
              rw [hmark]
              constructor
              · rw [countMark_setCell Mark.O Mark.X (by simp) _ _ he, hcnt.1]
                simp only [if_neg (by simp : ¬ Mark.O = Mark.X)]
                omega
              · rw [countMark_setCell Mark.O Mark.O (by simp) _ _ he, hcnt.2]
                simp only [if_pos rfl]
                simp only [if_true]
                omega
  | jump step hg hstep ih =>
      obtain ⟨h1, h2, h3⟩ := ih
      exact ⟨hstep, rfl, h3⟩

/-! Helper lemmas about the line scan of calculateWinner. -/

theorem winnerForLines_eq_find (squares : List Mark) :
    ∀ ls : List (Nat × Nat × Nat),
      winnerForLines ls squares =
        (match ls.find? (fun l => decide (LineMatches squares l)) with
          | some l => getCell squares l.1
          | none => Mark.Empty) := by
  intro ls
  induction ls with
  | nil => rfl
  | cons l rest ih =>
      by_cases h : LineMatches squares l
      · rw [winnerForLines, if_pos h, List.find?_cons_of_pos _ (by simpa using h)]
      · rw [winnerForLines, if_neg h, List.find?_cons_of_neg _ (by simpa using h), ih]

theorem winnerForLines_first (squares : List Mark) :
    ∀ (ls : List (Nat × Nat × Nat)) (k : Nat) (hk : k < ls.length),
      LineMatches squares (ls.get ⟨k, hk⟩) →
      (∀ j, ∀ hj : j < k, ¬ LineMatches squares (ls.get ⟨j, Nat.lt_trans hj hk⟩)) →
      winnerForLines ls squares = getCell squares (ls.get ⟨k, hk⟩).1 := by
  intro ls
  induction ls with
  | nil => intro k hk; simp at hk
  | cons l rest ih =>
      intro k hk hmatch hprior
      cases k with
      | zero =>
          simp only [List.get] at hmatch ⊢
          rw [winnerForLines, if_pos hmatch]
      | succ j =>
          have h0 : ¬ LineMatches squares l := by
            have := hprior 0 (Nat.succ_pos j)
            simpa using this
          rw [winnerForLines, if_neg h0]
          simp only [List.get] at hmatch ⊢
          exact ih j (Nat.lt_of_succ_lt_succ hk) hmatch (fun j2 hj2 => by
            have := hprior (j2 + 1) (Nat.succ_lt_succ hj2)
            simpa using this)

/-- C1: calculateWinner scans the 8 hard-coded lines (3 rows, 3 columns,
2 diagonals, in that order) and returns the mark of the first line whose
three cells are equal and non-empty, Empty otherwise; it agrees with the
spec-side first-match description everywhere, returns Empty on the
all-empty board, and returns the matching mark of any line no earlier
line of which matches. -/
theorem calculateWinner_matches_spec :
    (∀ squares : List Mark, winnerForLines winLines squares = winnerSpec squares) ∧
    winnerForLines winLines (List.replicate 9 Mark.Empty) = Mark.Empty ∧
    (∀ (squares : List Mark) (k : Nat) (hk : k < winLines.length),
      LineMatches squares (winLines.get ⟨k, hk⟩) →
      (∀ j, ∀ hj : j < k, ¬ LineMatches squares (winLines.get ⟨j, Nat.lt_trans hj hk⟩)) →
      winnerForLines winLines squares = getCell squares (winLines.get ⟨k, hk⟩).1) := by
  refine ⟨?_, by decide, ?_⟩
  · intro squares
    rw [winnerForLines_eq_find squares winLines]
    rfl
  · intro squares k hk hm hp
    exact winnerForLines_first squares winLines k hk hm hp

/-- Witness for C1: with X across the whole top row (line 0, no earlier
line) the detector returns X. -/
theorem calculateWinner_matches_spec_witness :
    winnerForLines winLines
      [Mark.X, Mark.X, Mark.X, Mark.O, Mark.O,
        Mark.Empty, Mark.Empty, Mark.Empty, Mark.Empty] = Mark.X :=
  (calculateWinner_matches_spec.2.2
    [Mark.X, Mark.X, Mark.X, Mark.O, Mark.O,
      Mark.Empty, Mark.Empty, Mark.Empty, Mark.Empty]
    0 (by decide) (by decide) (fun j hj => absurd hj (Nat.not_lt_zero j))).trans (by decide)

/-- C2: an accepted click replaces the history by its cursor prefix plus
exactly one new snapshot carrying the mover's mark at the clicked cell,
advances the cursor by one, and flips the turn; the new length is the
old cursor plus two. -/
theorem placeMark_accepted (boardSize : Nat) (g : GameState) (i : Nat)
    (hr : Reachable boardSize g) (hi : i < calculateBoardArea boardSize)
    (hw : calculateWinner g = Mark.Empty)
    (he : getCell (getCurrentState g).squares i = Mark.Empty) :
    (handleClick boardSize g i).history =
        g.history.take (g.stepNumber + 1) ++
          [{ squares := setCell (getCurrentState g).squares i
               (if g.xIsNext then Mark.X else Mark.O),
             movePosition := computeCoordinates boardSize i }] ∧
    (handleClick boardSize g i).stepNumber = g.stepNumber + 1 ∧
    (handleClick boardSize g i).xIsNext = !g.xIsNext ∧
    (handleClick boardSize g i).history.length = g.stepNumber + 2 := by
  have h1 := (reachable_inv hr).1
  have hlen := getHistoryCopy_length g h1
  rw [handleClick_accept _ _ _ hw he, fillSquare_eq]
  refine ⟨rfl, hlen, rfl, ?_⟩
  simp only [List.length_append, List.length_cons, List.length_nil, hlen]

/-- Witness for C2: the very first click at square 0. -/
theorem placeMark_accepted_witness :
    (handleClick 3 (initialState 3) 0).history.length = (initialState 3).stepNumber + 2 :=
  (placeMark_accepted 3 (initialState 3) 0 Reachable.init (by decide) (by decide)
    (by decide)).2.2.2

/-- C3: a click on an occupied square, or any click while the current
board has a winner, returns the state unchanged. -/
theorem placeMark_noop (boardSize : Nat) (g : GameState) (i : Nat)
    (h : getCell (getCurrentState g).squares i ≠ Mark.Empty ∨ calculateWinner g ≠ Mark.Empty) :
    handleClick boardSize g i = g :=
  handleClick_reject boardSize g i h.symm

/-- Witness for C3: clicking square 0 twice in a row; the second click
hits an occupied cell and changes nothing. -/
theorem placeMark_noop_witness :
    handleClick 3 (handleClick 3 (initialState 3) 0) 0 = handleClick 3 (initialState 3) 0 :=
  placeMark_noop 3 (handleClick 3 (initialState 3) 0) 0 (Or.inl (by decide))

/-- C4: the status is Winner when the current board has one, otherwise
Draw exactly when the cursor equals the board area, otherwise InProgress
with the player the turn flag selects; the concrete full board with no
line is a Draw. -/
theorem reportGameStatus_spec (boardSize : Nat) (g : GameState) :
    (calculateWinner g ≠ Mark.Empty →
      reportGameStatus boardSize g = GameStatus.Winner (calculateWinner g)) ∧
    (calculateWinner g = Mark.Empty → g.stepNumber = calculateBoardArea boardSize →
      reportGameStatus boardSize g = GameStatus.Draw) ∧
    (calculateWinner g = Mark.Empty → g.stepNumber ≠ calculateBoardArea boardSize →
      reportGameStatus boardSize g =
        GameStatus.InProgress (if g.xIsNext then Mark.X else Mark.O)) ∧
    reportGameStatus 3 (playMoves 3 (initialState 3) [0, 2, 1, 3, 5, 4, 6, 7, 8]) =
      GameStatus.Draw := by
  refine ⟨?_, ?_, ?_, by decide⟩
  · intro hw
    rw [reportGameStatus, if_pos hw]
  · intro hw hs
    rw [reportGameStatus, if_neg (fun hne => hne hw), if_pos hs]
  · intro hw hs
    rw [reportGameStatus, if_neg (fun hne => hne hw), if_neg hs]

/-- Witness for C4: the initial state is in progress with X to move. -/
theorem reportGameStatus_spec_witness :
    reportGameStatus 3 (initialState 3) =
      GameStatus.InProgress (if (initialState 3).xIsNext then Mark.X else Mark.O) :=
  (reportGameStatus_spec 3 (initialState 3)).2.2.1 (by decide) (by decide)

/-- C5: on every reachable state the turn flag is set exactly when the
cursor is even. -/
theorem turn_parity (boardSize : Nat) (g : GameState) (h : Reachable boardSize g) :
    g.xIsNext = true ↔ g.stepNumber % 2 = 0 := by
  rw [(reachable_inv h).2.1]
  exact decide_eq_true_iff

/-- Witness for C5: the initial state, cursor 0, X to move. -/
theorem turn_parity_witness :
    (initialState 3).xIsNext = true ∧ (initialState 3).stepNumber % 2 = 0 :=
  ⟨(turn_parity 3 (initialState 3) Reachable.init).mpr (by decide), by decide⟩

/-- C6: every board stored in the history of a reachable state carries
either equally many X and O marks or exactly one more X than O. -/
theorem mark_balance (boardSize : Nat) (g : GameState) (h : Reachable boardSize g) :
    ∀ mh ∈ g.history,
      countMark Mark.X mh.squares = countMark Mark.O mh.squares ∨
      countMark Mark.X mh.squares = countMark Mark.O mh.squares + 1 := by
  intro mh hmem
  obtain ⟨n, hn⟩ := List.mem_iff_get.mp hmem
  have h3 := (reachable_inv h).2.2 n.1 n.2
  rw [List.getD_eq_getElem _ _ n.2, ← List.get_eq_getElem, hn] at h3
  obtain ⟨hx, ho⟩ := h3
  omega

/-- Witness for C6: the all-empty initial board, zero of each mark. -/
theorem mark_balance_witness :
    countMark Mark.X (getCurrentState (initialState 3)).squares =
        countMark Mark.O (getCurrentState (initialState 3)).squares ∨
      countMark Mark.X (getCurrentState (initialState 3)).squares =
        countMark Mark.O (getCurrentState (initialState 3)).squares + 1 :=
  mark_balance 3 (initialState 3) Reachable.init (getCurrentState (initialState 3)) (by decide)

/-- C7 (amended): a jump never changes the history length; a click the
occupied-or-winner guard rejects leaves it unchanged; an accepted click
truncates to the cursor prefix and appends one entry, making the length
exactly cursor plus two, which can lie below the previous length after
a rewind — when the cursor sits at the last entry the length never
decreases. -/
theorem history_length_evolution (boardSize : Nat) (g : GameState) (h : Reachable boardSize g) :
    (∀ step : Nat, (jumpToStateInMoveHistory g step).history.length = g.history.length) ∧
    (∀ i : Nat,
      (calculateWinner g ≠ Mark.Empty ∨ getCell (getCurrentState g).squares i ≠ Mark.Empty) →
      (handleClick boardSize g i).history.length = g.history.length) ∧
    (∀ i : Nat, calculateWinner g = Mark.Empty →
      getCell (getCurrentState g).squares i = Mark.Empty →
      (handleClick boardSize g i).history.length = g.stepNumber + 2) ∧
    (g.stepNumber + 1 = g.history.length →
      ∀ i : Nat, g.history.length ≤ (handleClick boardSize g i).history.length) := by
  have h1 := (reachable_inv h).1
  have hlen := getHistoryCopy_length g h1
  have hrejlen : ∀ i : Nat,
      (calculateWinner g ≠ Mark.Empty ∨ getCell (getCurrentState g).squares i ≠ Mark.Empty) →
      (handleClick boardSize g i).history.length = g.history.length := by
    intro i hrej
    rw [handleClick_reject _ _ _ hrej]
  have hacclen : ∀ i : Nat, calculateWinner g = Mark.Empty →
      getCell (getCurrentState g).squares i = Mark.Empty →
      (handleClick boardSize g i).history.length = g.stepNumber + 2 := by
    intro i hw he
    rw [handleClick_accept _ _ _ hw he, fillSquare_eq]
    simp only [List.length_append, List.length_cons, List.length_nil, hlen]
  refine ⟨fun step => rfl, hrejlen, hacclen, ?_⟩
  intro hend i
  by_cases hrej : calculateWinner g ≠ Mark.Empty ∨ getCell (getCurrentState g).squares i ≠ Mark.Empty
  · rw [hrejlen i hrej]
  · push_neg at hrej
    rw [hacclen i hrej.1 hrej.2]
    omega

/-- Counterexample to C7 as stated: the reachable state obtained by three
moves and a jump back to the start loses two history entries when the
next click is accepted, so the length shrinks from four to two. -/
theorem history_can_shrink :
    Reachable 3 (jumpToStateInMoveHistory (playMoves 3 (initialState 3) [0, 1, 3]) 0) ∧
    (handleClick 3
        (jumpToStateInMoveHistory (playMoves 3 (initialState 3) [0, 1, 3]) 0) 4).history.length <
      (jumpToStateInMoveHistory (playMoves 3 (initialState 3) [0, 1, 3]) 0).history.length := by
  constructor
  · exact Reachable.jump 0
      (Reachable.place 3 (Reachable.place 1 (Reachable.place 0 Reachable.init))) (by decide)
  · decide

/-- Witness for the amended C7: at the initial state an accepted click
does not shrink the one-entry history. -/
theorem history_length_evolution_witness :
    (initialState 3).history.length ≤ (handleClick 3 (initialState 3) 0).history.length :=
  (history_length_evolution 3 (initialState 3) Reachable.init).2.2.2 (by decide) 0

/-- C8: a jump to a step in range moves the cursor there, recomputes the
turn flag from the step's parity, and leaves the history untouched. -/
theorem jumpTo_spec (g : GameState) (step : Nat) (h : step < g.history.length) :
    (jumpToStateInMoveHistory g step).stepNumber = step ∧
    (jumpToStateInMoveHistory g step).xIsNext = decide (step % 2 = 0) ∧
    (jumpToStateInMoveHistory g step).history = g.history :=
  ⟨rfl, rfl, rfl⟩

/-- Witness for C8: jumping to step 0 of the initial state. -/
theorem jumpTo_spec_witness :
    (jumpToStateInMoveHistory (initialState 3) 0).history = (initialState 3).history :=
  (jumpTo_spec (initialState 3) 0 (by decide)).2.2

/-- C9: computeCoordinates divides the index by the board size for the
row and takes the remainder for the column; the coordinates of index 2
on the 3 by 3 board are (0, 2), and both components are below boardSize
for every in-range index. -/
theorem computeCoordinates_spec (boardSize i : Nat) (h : 0 < boardSize) :
    computeCoordinates boardSize i =
        { row := some (i / boardSize), column := some (i % boardSize) } ∧
    computeCoordinates 3 2 = { row := some 0, column := some 2 } ∧
    (i < calculateBoardArea boardSize →
      i / boardSize < boardSize ∧ i % boardSize < boardSize) := by
  refine ⟨rfl, by decide, fun hi => ⟨?_, Nat.mod_lt i h⟩⟩
  rw [Nat.div_lt_iff_lt_mul h]
  rw [calculateBoardArea, pow_two] at hi
  exact hi

/-- Witness for C9: index 2 on the 3 by 3 board. -/
theorem computeCoordinates_spec_witness :
    computeCoordinates 3 2 = { row := some 0, column := some 2 } :=
  (computeCoordinates_spec 3 2 (by decide)).2.1

/-- Reading back the cell just written past the end of the array. -/
theorem getCell_setCell_ge (l : List Mark) (i : Nat) (m : Mark) (h : l.length ≤ i) :
    getCell (setCell l i m) i = m := by
  rw [setCell, if_neg (Nat.not_lt.mpr h), getCell]
  have hlen2 : (l ++ List.replicate (i - l.length) Mark.Empty).length = i := by
    rw [List.length_append, List.length_replicate]
    omega
  rw [List.getD_append_right _ _ _ _ (le_of_eq hlen2), hlen2, Nat.sub_self]
  rfl

/-- The current state right after updateState appends a snapshot is that
snapshot. -/
theorem getCurrentState_append (hist : List MoveHistory) (e : MoveHistory) (b : Bool) :
    getCurrentState { history := hist ++ [e], stepNumber := hist.length, xIsNext := b } = e := by
  show (List.take (hist.length + 1) (hist ++ [e])).getD
      ((List.take (hist.length + 1) (hist ++ [e])).length - 1) emptyEntry = e
  rw [List.take_of_length_le (by simp), List.length_append]
  simp only [List.length_cons, List.length_nil, Nat.add_sub_cancel]
  exact getD_append_self hist e emptyEntry

/-- C10 (amended): with no winner on the current board, a click at an
index at or past the board area is accepted, not rejected: the history
becomes the cursor prefix plus one appended snapshot (cursor plus two
entries, one more than before when the cursor was at the end), and the
mover's mark sits at the out-of-range index of the new current board. -/
theorem placeMark_out_of_range (boardSize : Nat) (g : GameState) (i : Nat)
    (hr : Reachable boardSize g) (hw : calculateWinner g = Mark.Empty)
    (hlen : (getCurrentState g).squares.length = calculateBoardArea boardSize)
    (hi : calculateBoardArea boardSize ≤ i) :
    handleClick boardSize g i ≠ g ∧
    (handleClick boardSize g i).history.length = g.stepNumber + 2 ∧
    (g.stepNumber + 1 = g.history.length →
      (handleClick boardSize g i).history.length = g.history.length + 1) ∧
    getCell (getCurrentState (handleClick boardSize g i)).squares i =
      (if g.xIsNext then Mark.X else Mark.O) := by
  have hge : (getCurrentState g).squares.length ≤ i := by
    rw [hlen]
    exact hi
  have he : getCell (getCurrentState g).squares i = Mark.Empty :=
    List.getD_eq_default _ _ hge
  have h1 := (reachable_inv hr).1
  have hL := getHistoryCopy_length g h1
  have hacc := handleClick_accept boardSize g i hw he
  refine ⟨?_, ?_, ?_, ?_⟩
  · rw [hacc, fillSquare_eq]
    intro heq
    have hst : (getHistoryCopy g).length = g.stepNumber :=
      congrArg GameState.stepNumber heq
    omega
  · rw [hacc, fillSquare_eq]
    simp only [List.length_append, List.length_cons, List.length_nil, hL]
  · intro hend
    rw [hacc, fillSquare_eq]
    simp only [List.length_append, List.length_cons, List.length_nil, hL]
    omega
  · rw [hacc, fillSquare_eq, getCurrentState_append]
    exact getCell_setCell_ge _ _ _ hge

/-- Counterexample to C10 as stated: from the rewound reachable state
with no winner, the out-of-range click at index 9 is accepted, yet the
history length drops from four to two instead of increasing by one. -/
theorem out_of_range_after_rewind :
    Reachable 3 (jumpToStateInMoveHistory (playMoves 3 (initialState 3) [0, 1, 3]) 0) ∧
    calculateWinner (jumpToStateInMoveHistory (playMoves 3 (initialState 3) [0, 1, 3]) 0) =
      Mark.Empty ∧
    handleClick 3 (jumpToStateInMoveHistory (playMoves 3 (initialState 3) [0, 1, 3]) 0) 9 ≠
      jumpToStateInMoveHistory (playMoves 3 (initialState 3) [0, 1, 3]) 0 ∧
    (handleClick 3
        (jumpToStateInMoveHistory (playMoves 3 (initialState 3) [0, 1, 3]) 0) 9).history.length ≠
      (jumpToStateInMoveHistory (playMoves 3 (initialState 3) [0, 1, 3]) 0).history.length + 1 := by
  refine ⟨?_, by decide, by decide, by decide⟩
  exact Reachable.jump 0
    (Reachable.place 3 (Reachable.place 1 (Reachable.place 0 Reachable.init))) (by decide)

/-- Witness for the amended C10: clicking index 9 of the fresh 3 by 3
board writes X into the tenth cell of the only board in play. -/
theorem placeMark_out_of_range_witness :
    getCell (getCurrentState (handleClick 3 (initialState 3) 9)).squares 9 =
      (if (initialState 3).xIsNext then Mark.X else Mark.O) :=
  (placeMark_out_of_range 3 (initialState 3) 9 Reachable.init (by decide) (by decide)
    (by decide)).2.2.2

end TicTacToe
